import Mathlib

/-!
Verification of the statement-import / reconciliation core of the
quickbooks-online-cli repository, as a shallow embedding in Lean 4.

The embedding follows the Python source:
  * `src/qb/commands/import_cmd.py` — `_match_transactions`, the date-window
    computation in `bank`, the gateway query loop and the creation loop;
  * `src/qb/commands/reconcile.py` — `start`, `status`, `match`;
  * `src/qb/api/client.py` — `QBClient.query` (MAXRESULTS clause);
  * `src/qb/api/query.py` — `escape_query_value`.

Monetary amounts are modelled as `ℚ` (the Python code uses IEEE doubles; all
concrete amounts used below are values on which the double and the rational
comparison agree).  Fallible Python code (uncaught exceptions) is modelled
with `Except Unit`.
-/

namespace QB

/-! ### Calendar dates

`datetime.strptime(s[:10], "%Y-%m-%d")` in the Python source: the first ten
characters must be exactly four year digits, a dash, one or two month digits,
a dash and one or two day digits; the month must be 1..12 and the day valid
for that month (the `datetime` constructor validates it, year 1..9999).
A parsed date is represented by its day number (days-from-civil), so that
`(d1 - d2).days` in Python is day-number subtraction here. -/

def isLeap (y : Nat) : Bool :=
  y % 4 == 0 && (y % 100 != 0 || y % 400 == 0)

def daysInMonth (y m : Nat) : Nat :=
  if m = 2 then (if isLeap y then 29 else 28)
  else if m = 4 ∨ m = 6 ∨ m = 9 ∨ m = 11 then 30
  else 31

/-- Day number of a proleptic-Gregorian civil date (Howard Hinnant's
`days_from_civil`, valid for `y ≥ 1`); day 0 is 1970-01-01. -/
def daysFromCivil (y m d : Nat) : Int :=
  let yy : Int := if m ≤ 2 then (y : Int) - 1 else (y : Int)
  let era : Int := yy / 400
  let yoe : Int := yy - era * 400
  let mp : Int := if 3 ≤ m then (m : Int) - 3 else (m : Int) + 9
  let doy : Int := (153 * mp + 2) / 5 + (d : Int) - 1
  let doe : Int := yoe * 365 + yoe / 4 - yoe / 100 + doy
  era * 146097 + doe - 719468

def allDigits (l : List Char) : Bool :=
  l.all Char.isDigit

def digitsVal (l : List Char) : Nat :=
  l.foldl (fun a c => a * 10 + (c.toNat - 48)) 0

/-- Split a character list at every dash (the behaviour of Python
`str.split("-")` and of `String.splitOn "-"`). -/
def splitDashes : List Char → List (List Char)
  | [] => [[]]
  | c :: rest =>
    if c = '-' then [] :: splitDashes rest
    else
      match splitDashes rest with
      | [] => [[c]]
      | h :: t => (c :: h) :: t

/-- `datetime.strptime(s[:10], "%Y-%m-%d")`, returning the day number, or
`none` where Python raises `ValueError`: exactly four year digits, one or
two month digits (1..12), one or two day digits valid for the month, and
nothing else. -/
def parseDate (s : String) : Option Int :=
  match splitDashes (s.data.take 10) with
  | [ys, ms, ds] =>
    if ys.length = 4 ∧ allDigits ys
        ∧ 1 ≤ ms.length ∧ ms.length ≤ 2 ∧ allDigits ms
        ∧ 1 ≤ ds.length ∧ ds.length ≤ 2 ∧ allDigits ds then
      let y := digitsVal ys
      let m := digitsVal ms
      let d := digitsVal ds
      if 1 ≤ y ∧ 1 ≤ m ∧ m ≤ 12 ∧ 1 ≤ d ∧ d ≤ daysInMonth y m then
        some (daysFromCivil y m d)
      else none
    else none
  | _ => none

/-! ### Records -/

/-- A normalized statement transaction, as produced by `_parse_ofx` /
`_parse_csv`: keys `date`, `amount`, `fitid`, `name`, `check_number`. -/
structure ImpTxn where
  date : String
  amount : ℚ
  fitid : String
  check_number : String
  name : String
deriving Repr, DecidableEq

/-- A QuickBooks-side record as consumed by `_match_transactions`:
`amount` models `float(ex.get("TotalAmt", ex.get("Amount", 0)))`,
`txnDate` is `ex.get("TxnDate", "")`, `docNumber` is `ex.get("DocNumber", "")`,
`fitid` is `ex.get("_fitid", "")` and `id` is `ex.get("Id")`. -/
structure ExTxn where
  amount : ℚ
  txnDate : String
  docNumber : String
  fitid : String
  id : String
deriving Repr, DecidableEq

/-! ### The matcher (`_match_transactions`, import_cmd.py lines 87-148) -/

/-- `days_diff`: `abs((d_imp - d_ex).days)`, with the sentinel 999 assigned
when either `strptime` raises. -/
def daysDiff (a b : String) : Nat :=
  match parseDate a, parseDate b with
  | some x, some y => (x - y).natAbs
  | _, _ => 999

/-- The amount gate (line 113): the pair survives iff
`abs(abs(imp_amt) - abs(ex_amt)) ≤ 0.01`. -/
def amountGate (ia ea : ℚ) : Bool :=
  decide (|(|ia| - |ea|)| ≤ 1 / 100)

/-- The identifier condition of the exact-match test (lines 128-131):
non-empty `fitid` equal to `ex["_fitid"]`, or non-empty `check_number`
equal to `ex["DocNumber"]`. -/
def idMatch (imp : ImpTxn) (ex : ExTxn) : Bool :=
  (imp.fitid != "" && imp.fitid == ex.fitid)
    || (imp.check_number != "" && imp.check_number == ex.docNumber)

inductive MatchType where
  | exact
  | probable
deriving Repr, DecidableEq

/-- The inner candidate loop of `_match_transactions` for one statement
record, carrying `best_match` (`match_type` is `probable` exactly when
`best_match` is set).  `Except.error ()` models the uncaught `ValueError`
raised on line 137 when the probable-comparison re-parses an unparseable
date. -/
def matchLoop (imp : ImpTxn) (tol : Int) :
    List ExTxn → Option ExTxn → Except Unit (Option (MatchType × ExTxn))
  | [], best => .ok (best.map (fun b => (MatchType.probable, b)))
  | ex :: rest, best =>
    if amountGate imp.amount ex.amount then
      if (daysDiff imp.date ex.txnDate : Int) > tol then
        matchLoop imp tol rest best
      else if daysDiff imp.date ex.txnDate = 0 && idMatch imp ex then
        .ok (some (MatchType.exact, ex))
      else
        match best with
        | none => matchLoop imp tol rest (some ex)
        | some b =>
          match parseDate imp.date, parseDate b.txnDate with
          | some x, some y =>
            if daysDiff imp.date ex.txnDate < (x - y).natAbs then
              matchLoop imp tol rest (some ex)
            else
              matchLoop imp tol rest (some b)
          | _, _ => .error ()
    else matchLoop imp tol rest best

/-- Outcome of `_match_transactions` for a single statement record. -/
def matchOne (imp : ImpTxn) (existing : List ExTxn) (tol : Int) :
    Except Unit (Option (MatchType × ExTxn)) :=
  matchLoop imp tol existing none

structure MatchResult where
  matched : List (ImpTxn × ExTxn)
  probable : List (ImpTxn × ExTxn)
  unmatched : List ImpTxn
deriving Repr, DecidableEq

/-- `_match_transactions(imported, existing, tolerance_days)`: every statement
record is matched against the full `existing` list (the source keeps no
claimed-set); an uncaught exception aborts the whole call. -/
def _match_transactions (imported : List ImpTxn) (existing : List ExTxn)
    (tol : Int) : Except Unit MatchResult :=
  match imported with
  | [] => .ok ⟨[], [], []⟩
  | imp :: rest =>
    match matchOne imp existing tol with
    | .error e => .error e
    | .ok r =>
      match _match_transactions rest existing tol with
      | .error e => .error e
      | .ok res =>
        match r with
        | some (.exact, ex) =>
          .ok ⟨(imp, ex) :: res.matched, res.probable, res.unmatched⟩
        | some (.probable, ex) =>
          .ok ⟨res.matched, (imp, ex) :: res.probable, res.unmatched⟩
        | none =>
          .ok ⟨res.matched, res.probable, imp :: res.unmatched⟩

/-! ### Lexicographic string order (Python `<` on `str`, code-point-wise) -/

def lexLt : List Char → List Char → Bool
  | _, [] => false
  | [], _ :: _ => true
  | a :: as', b :: bs => a < b || (a == b && lexLt as' bs)

def listIsPrefix : List Char → List Char → Bool
  | [], _ => true
  | _ :: _, [] => false
  | a :: as', b :: bs => a == b && listIsPrefix as' bs

def listIsSuffix (s l : List Char) : Bool :=
  listIsPrefix s.reverse l.reverse

/-! ### Date window of `import bank` (import_cmd.py lines 224-233) and of
`reconcile match` (reconcile.py lines 144-146)

`dates = [t["date"][:10] for t in txns if t["date"]]` followed by
`min(dates)` / `max(dates)` — Python's `min`/`max` on an empty list raise an
uncaught `ValueError` (modelled as `Except.error ()`); on strings they are
lexicographic and keep the first extremum. -/

def windowDates (txns : List ImpTxn) : List String :=
  txns.filterMap
    (fun t => if t.date = "" then none else some ⟨t.date.data.take 10⟩)

def strListMin (d0 : String) (rest : List String) : String :=
  rest.foldl (fun a b => if lexLt b.data a.data then b else a) d0

def strListMax (d0 : String) (rest : List String) : String :=
  rest.foldl (fun a b => if lexLt a.data b.data then b else a) d0

/-- The query window of `import bank`: either the tolerance-expanded window
(both bounds given as day numbers of `minDate - tolerance` and
`maxDate + tolerance`), or, when `strptime` fails on a bound, the raw
min/max strings. -/
inductive DateWindow where
  | expanded (startDay endDay : Int)
  | raw (s e : String)
deriving Repr, DecidableEq

def bankDateWindow (txns : List ImpTxn) (tol : Int) : Except Unit DateWindow :=
  match windowDates txns with
  | [] => .error ()
  | d0 :: rest =>
    let mn := strListMin d0 rest
    let mx := strListMax d0 rest
    match parseDate mn, parseDate mx with
    | some a, some b => .ok (.expanded (a - tol) (b + tol))
    | _, _ => .ok (.raw mn mx)

/-- The query window of `reconcile match` (no tolerance expansion). -/
def reconcileMatchWindow (txns : List ImpTxn) : Except Unit (String × String) :=
  match windowDates txns with
  | [] => .error ()
  | d0 :: rest => .ok (strListMin d0 rest, strListMax d0 rest)

/-! ### Reconciliation sessions (reconcile.py) -/

/-- Python `round(x, 2)` (round-half-to-even) on a rational. -/
def pyRound2 (q : ℚ) : ℚ :=
  let x := q * 100
  let n : Int := ⌊x⌋
  let f : ℚ := x - n
  let r : Int :=
    if f < 1 / 2 then n
    else if 1 / 2 < f then n + 1
    else if n % 2 = 0 then n else n + 1
  (r : ℚ) / 100

/-- The balance arithmetic of `reconcile start` (lines 67-79): the session's
`difference` and `status` fields. -/
structure SessionCalc where
  difference : ℚ
  status : String
deriving Repr, DecidableEq

def startSession (statementBalance qbBalance : ℚ) : SessionCalc :=
  let difference := pyRound2 (statementBalance - qbBalance)
  { difference := difference
    status := if |difference| < 1 / 100 then "balanced" else "unbalanced" }

/-- `reconcile_{account_id}_{statement_date}.json`, the session file name
written by `start` (line 83). -/
def sessionFileName (accountId statementDate : String) : String :=
  "reconcile_" ++ accountId ++ "_" ++ statementDate ++ ".json"

/-- The glob `reconcile_{account_id}_*.json` of `status` (line 105): a fixed
prefix, any middle, and the `.json` suffix. -/
def matchesSessionGlob (accountId : String) (f : String) : Bool :=
  let pre := ("reconcile_" ++ accountId ++ "_").data
  listIsPrefix pre f.data && listIsSuffix ".json".data f.data
    && decide (pre.length + 5 ≤ f.data.length)

/-- Stable insertion into a descending list (Python
`sorted(..., reverse=True)` head = lexicographic maximum). -/
def insertDesc (x : String) : List String → List String
  | [] => [x]
  | y :: ys => if lexLt y.data x.data then x :: y :: ys else y :: insertDesc x ys

def sortDesc : List String → List String
  | [] => []
  | x :: xs => insertDesc x (sortDesc xs)

/-- Result of the `status` command.  The command never raises: with no
matching session file it prints a `status: none` message and returns
(process exit code 0); otherwise it loads `sessions[0]`, the first file in
descending filename order. -/
inductive StatusOut where
  | noneInProgress (msg : String)
  | session (file : String)
deriving Repr, DecidableEq

structure StatusResult where
  exitCode : Nat
  out : StatusOut
deriving Repr, DecidableEq

def statusCmd (accountId : String) (files : List String) : StatusResult :=
  match sortDesc (files.filter (matchesSessionGlob accountId)) with
  | [] =>
    { exitCode := 0
      out := .noneInProgress
        ("No reconciliation in progress for account " ++ accountId) }
  | f :: _ => { exitCode := 0, out := .session f }

/-! ### Ledger query gateway (import_cmd.py lines 240-248, client.py 162-166,
query.py 42-48) -/

/-- `escape_query_value`: double every single quote. -/
def escape_query_value (v : String) : String :=
  ⟨v.data.foldr
    (fun c acc =>
      if c = Char.ofNat 39 then Char.ofNat 39 :: Char.ofNat 39 :: acc
      else c :: acc) []⟩

/-- Substring test (Python `in` on `str`). -/
def containsTok (tok : List Char) : List Char → Bool
  | [] => listIsPrefix tok []
  | c :: cs => listIsPrefix tok (c :: cs) || containsTok tok cs

/-- `QBClient.query`: append `MAXRESULTS {max_results}` unless the SQL
already mentions it (case-insensitively). -/
def clientQuerySql (sql : String) (maxResults : Int) : String :=
  if containsTok "MAXRESULTS".data (sql.data.map Char.toUpper) then sql
  else sql ++ " MAXRESULTS " ++ toString maxResults

/-- The per-entity SQL of the `import bank` query loop (line 243), with the
window bounds escaped. -/
def importEntitySql (entity s e : String) : String :=
  "SELECT * FROM " ++ entity ++ " WHERE TxnDate >= "
    ++ String.mk (Char.ofNat 39 :: (escape_query_value s).data ++ [Char.ofNat 39])
    ++ " AND TxnDate <= "
    ++ String.mk (Char.ofNat 39 :: (escape_query_value e).data ++ [Char.ofNat 39])

/-- The fan-out loop (lines 240-248 of import_cmd.py, 49-65 of reconcile.py):
each document type is queried independently through an abstract gateway
oracle `q`; a per-type failure is swallowed (`except Exception: continue`)
and contributes zero records. -/
def fetchExisting {α : Type} (q : String → Except Unit (List α)) :
    List String → List α
  | [] => []
  | t :: ts =>
    (match q t with
     | .ok l => l
     | .error _ => []) ++ fetchExisting q ts

/-! ### Creation of unmatched records (import_cmd.py lines 253-294) -/

/-- The request body built for an unmatched statement record: a Purchase
(amount < 0, line amount `abs(amount)`, expense account "31", `DocNumber`
from a non-empty check number) or a Deposit (amount ≥ 0, line amount as-is,
income account "32", never a `DocNumber`). -/
structure CreateBody where
  accountRef : String
  txnDate : String
  lineAmount : ℚ
  lineAccount : String
  docNumber : Option String
  privateNote : String
deriving Repr, DecidableEq

def buildCreate (accountId : String) (t : ImpTxn) : String × CreateBody :=
  if t.amount < 0 then
    ("Purchase",
      { accountRef := accountId
        txnDate := String.mk (t.date.data.take 10)
        lineAmount := |t.amount|
        lineAccount := "31"
        docNumber := if t.check_number = "" then none else some t.check_number
        privateNote := "Imported: " ++ t.name })
  else
    ("Deposit",
      { accountRef := accountId
        txnDate := String.mk (t.date.data.take 10)
        lineAmount := t.amount
        lineAccount := "32"
        docNumber := none
        privateNote := "Imported: " ++ t.name })

/-- One element of the `created` detail list: a success record with the
created entity and its id, or an error record with the message. -/
inductive CreatedEntry where
  | ok (txn : ImpTxn) (entity : String) (id : Option String)
  | err (txn : ImpTxn) (msg : String)
deriving Repr, DecidableEq

def createEntry (post : String → CreateBody → Except String (Option String))
    (accountId : String) (t : ImpTxn) : CreatedEntry :=
  match post (buildCreate accountId t).1 (buildCreate accountId t).2 with
  | .ok i => .ok t (buildCreate accountId t).1 i
  | .error e => .err t e

/-- The creation loop: one iteration per unmatched record, each wrapped in
its own `try/except`, appending exactly one entry either way. -/
def createUnmatched (post : String → CreateBody → Except String (Option String))
    (accountId : String) : List ImpTxn → List CreatedEntry
  | [] => []
  | t :: ts => createEntry post accountId t :: createUnmatched post accountId ts

/-- The `created` count and detail list of the final report (lines 296-311):
`len(created) if not dry_run else 0` and `created if not dry_run else []`. -/
def reportCreatedCount (dryRun : Bool) (created : List CreatedEntry) : Nat :=
  if dryRun then 0 else created.length

def reportCreatedDetails (dryRun : Bool) (created : List CreatedEntry) :
    List CreatedEntry :=
  if dryRun then [] else created

/-! ### Derived predicates on the matcher -/

/-- A candidate survives both gates of `_match_transactions`: amount within
0.01 and day distance within tolerance. -/
def passesGates (imp : ImpTxn) (tol : Int) (ex : ExTxn) : Bool :=
  amountGate imp.amount ex.amount
    && decide ((daysDiff imp.date ex.txnDate : Int) ≤ tol)

/-- A candidate that fires the exact-match branch: both gates, day distance
exactly 0, and an identifier match. -/
def exactTrigger (imp : ImpTxn) (tol : Int) (ex : ExTxn) : Bool :=
  passesGates imp tol ex && (daysDiff imp.date ex.txnDate == 0) && idMatch imp ex

/-! ### Helper lemmas about dates and the matcher loop -/

theorem parse_some_of_daysDiff_lt {a c : String} (h : daysDiff a c < 999) :
    ∃ x y, parseDate a = some x ∧ parseDate c = some y
      ∧ daysDiff a c = (x - y).natAbs := by
  cases hx : parseDate a with
  | none =>
    exfalso
    unfold daysDiff at h
    rw [hx] at h
    cases hy : parseDate c <;> rw [hy] at h <;> simp at h
  | some x =>
    cases hy : parseDate c with
    | none =>
      exfalso
      unfold daysDiff at h
      rw [hx, hy] at h
      simp at h
    | some y =>
      refine ⟨x, y, rfl, rfl, ?_⟩
      unfold daysDiff
      rw [hx, hy]

theorem daysDiff_eq_of_parse {a c : String} {x y : Int}
    (hx : parseDate a = some x) (hy : parseDate c = some y) :
    daysDiff a c = (x - y).natAbs := by
  unfold daysDiff
  rw [hx, hy]

/-- Any `Exact` outcome of the candidate loop comes from a member of the
candidate list that passed the amount gate, sits at day distance 0 and
matches an identifier. -/
theorem matchLoop_exact_props {imp : ImpTxn} {tol : Int} : ∀ {l : List ExTxn}
    {b : Option ExTxn} {ex : ExTxn},
    matchLoop imp tol l b = .ok (some (MatchType.exact, ex)) →
    ex ∈ l ∧ amountGate imp.amount ex.amount = true
      ∧ daysDiff imp.date ex.txnDate = 0 ∧ idMatch imp ex = true := by
  intro l
  induction l with
  | nil =>
    intro b ex h
    cases b <;> simp [matchLoop] at h
  | cons e rest ih =>
    intro b ex h
    rw [matchLoop.eq_def] at h
    simp only [] at h
    by_cases hg : amountGate imp.amount e.amount = true
    · rw [if_pos hg] at h
      by_cases hd : (daysDiff imp.date e.txnDate : Int) > tol
      · rw [if_pos hd] at h
        have := ih h
        exact ⟨List.mem_cons_of_mem _ this.1, this.2⟩
      · rw [if_neg hd] at h
        by_cases he :
            (decide (daysDiff imp.date e.txnDate = 0) && idMatch imp e) = true
        · rw [if_pos he] at h
          simp only [Except.ok.injEq, Option.some.injEq, Prod.mk.injEq] at h
          obtain ⟨-, hex⟩ := h
          subst hex
          simp only [Bool.and_eq_true, decide_eq_true_eq] at he
          exact ⟨List.mem_cons_self _ _, hg, he.1, he.2⟩
        · rw [if_neg he] at h
          cases b with
          | none =>
            have := ih h
            exact ⟨List.mem_cons_of_mem _ this.1, this.2⟩
          | some bb =>
            simp only [] at h
            cases hpx : parseDate imp.date with
            | none =>
              rw [hpx] at h
              cases hpy : parseDate bb.txnDate <;> rw [hpy] at h <;>
                simp at h
            | some x =>
              cases hpy : parseDate bb.txnDate with
              | none => rw [hpx, hpy] at h; simp at h
              | some y =>
                rw [hpx, hpy] at h
                simp only [] at h
                by_cases hlt :
                    daysDiff imp.date e.txnDate < (x - y).natAbs
                · rw [if_pos hlt] at h
                  have := ih h
                  exact ⟨List.mem_cons_of_mem _ this.1, this.2⟩
                · rw [if_neg hlt] at h
                  have := ih h
                  exact ⟨List.mem_cons_of_mem _ this.1, this.2⟩
    · rw [if_neg hg] at h
      have := ih h
      exact ⟨List.mem_cons_of_mem _ this.1, this.2⟩

/-- Any `Probable` outcome of the candidate loop is either a member of the
candidate list or the incoming best, and passed both gates (provided the
incoming best did). -/
theorem matchLoop_probable_props {imp : ImpTxn} {tol : Int} : ∀ {l : List ExTxn}
    {b : Option ExTxn} {ex : ExTxn},
    (∀ x, b = some x → passesGates imp tol x = true) →
    matchLoop imp tol l b = .ok (some (MatchType.probable, ex)) →
    (ex ∈ l ∨ b = some ex) ∧ passesGates imp tol ex = true := by
  intro l
  induction l with
  | nil =>
    intro b ex hb h
    cases b with
    | none => simp [matchLoop] at h
    | some bb =>
      simp [matchLoop] at h
      subst h
      exact ⟨Or.inr rfl, hb _ rfl⟩
  | cons e rest ih =>
    intro b ex hb h
    rw [matchLoop.eq_def] at h
    simp only [] at h
    by_cases hg : amountGate imp.amount e.amount = true
    · rw [if_pos hg] at h
      by_cases hd : (daysDiff imp.date e.txnDate : Int) > tol
      · rw [if_pos hd] at h
        have := ih hb h
        rcases this.1 with hm | hm
        · exact ⟨Or.inl (List.mem_cons_of_mem _ hm), this.2⟩
        · exact ⟨Or.inr hm, this.2⟩
      · rw [if_neg hd] at h
        have hpass : passesGates imp tol e = true := by
          simp only [passesGates, Bool.and_eq_true, decide_eq_true_eq]
          exact ⟨hg, by omega⟩
        by_cases he :
            (decide (daysDiff imp.date e.txnDate = 0) && idMatch imp e) = true
        · rw [if_pos he] at h
          simp at h
        · rw [if_neg he] at h
          cases b with
          | none =>
            have := ih (fun x hx => by rw [Option.some.injEq] at hx; rw [← hx]
                                       exact hpass) h
            rcases this.1 with hm | hm
            · exact ⟨Or.inl (List.mem_cons_of_mem _ hm), this.2⟩
            · rw [Option.some.injEq] at hm
              exact ⟨Or.inl (hm ▸ List.mem_cons_self _ _), this.2⟩
          | some bb =>
            simp only [] at h
            cases hpx : parseDate imp.date with
            | none =>
              rw [hpx] at h
              cases hpy : parseDate bb.txnDate <;> rw [hpy] at h <;>
                simp at h
            | some x =>
              cases hpy : parseDate bb.txnDate with
              | none => rw [hpx, hpy] at h; simp at h
              | some y =>
                rw [hpx, hpy] at h
                simp only [] at h
                have hbbpass : passesGates imp tol bb = true := hb _ rfl
                by_cases hlt :
                    daysDiff imp.date e.txnDate < (x - y).natAbs
                · rw [if_pos hlt] at h
                  have := ih (fun z hz => by
                    rw [Option.some.injEq] at hz; rw [← hz]; exact hpass) h
                  rcases this.1 with hm | hm
                  · exact ⟨Or.inl (List.mem_cons_of_mem _ hm), this.2⟩
                  · rw [Option.some.injEq] at hm
                    exact ⟨Or.inl (hm ▸ List.mem_cons_self _ _), this.2⟩
                · rw [if_neg hlt] at h
                  have := ih (fun z hz => by
                    rw [Option.some.injEq] at hz; rw [← hz]; exact hbbpass) h
                  rcases this.1 with hm | hm
                  · exact ⟨Or.inl (List.mem_cons_of_mem _ hm), this.2⟩
                  · rw [Option.some.injEq] at hm
                    exact ⟨Or.inr (by rw [hm]), this.2⟩
    · rw [if_neg hg] at h
      have := ih hb h
      rcases this.1 with hm | hm
      · exact ⟨Or.inl (List.mem_cons_of_mem _ hm), this.2⟩
      · exact ⟨Or.inr hm, this.2⟩

/-- If some candidate in the list fires the exact-match branch (both gates,
day distance 0, identifier match) and the tolerance is below the 999-day
sentinel, the candidate loop returns an `Exact` outcome. -/
theorem matchLoop_exact_of_mem {imp : ImpTxn} {tol : Int} (htol : tol < 999) :
    ∀ {l : List ExTxn} {b : Option ExTxn},
    (∀ x, b = some x → passesGates imp tol x = true) →
    (∃ w ∈ l, exactTrigger imp tol w = true) →
    ∃ ex, matchLoop imp tol l b = .ok (some (MatchType.exact, ex)) := by
  intro l
  induction l with
  | nil =>
    intro b _ hw
    obtain ⟨w, hwmem, -⟩ := hw
    exact absurd hwmem (List.not_mem_nil w)
  | cons e rest ih =>
    intro b hb hw
    obtain ⟨w, hwmem, hwt⟩ := hw
    have hwt' := hwt
    simp only [exactTrigger, passesGates, Bool.and_eq_true,
      decide_eq_true_eq, beq_iff_eq] at hwt'
    obtain ⟨⟨⟨hwgate, hwdate⟩, hwdd⟩, hwid⟩ := hwt'
    rw [matchLoop.eq_def]
    simp only []
    by_cases hg : amountGate imp.amount e.amount = true
    · rw [if_pos hg]
      by_cases hd : (daysDiff imp.date e.txnDate : Int) > tol
      · rw [if_pos hd]
        have hne : w ≠ e := by
          intro heq
          subst heq
          omega
        have hwrest : w ∈ rest := by
          rcases List.mem_cons.mp hwmem with h1 | h1
          · exact absurd h1 hne
          · exact h1
        exact ih hb ⟨w, hwrest, hwt⟩
      · rw [if_neg hd]
        by_cases he :
            (decide (daysDiff imp.date e.txnDate = 0) && idMatch imp e) = true
        · rw [if_pos he]
          exact ⟨e, rfl⟩
        · have hne : w ≠ e := by
            intro heq
            subst heq
            simp only [Bool.and_eq_true, decide_eq_true_eq] at he
            exact he ⟨hwdd, hwid⟩
          have hwrest : w ∈ rest := by
            rcases List.mem_cons.mp hwmem with h1 | h1
            · exact absurd h1 hne
            · exact h1
          rw [if_neg he]
          have hpass : passesGates imp tol e = true := by
            simp only [passesGates, Bool.and_eq_true, decide_eq_true_eq]
            exact ⟨hg, by omega⟩
          cases b with
          | none =>
            exact ih (fun z hz => by rw [Option.some.injEq] at hz
                                     rw [← hz]; exact hpass)
              ⟨w, hwrest, hwt⟩
          | some bb =>
            simp only []
            have hbbpass := hb bb rfl
            simp only [passesGates, Bool.and_eq_true, decide_eq_true_eq]
              at hbbpass
            have hbbdd : daysDiff imp.date bb.txnDate < 999 := by omega
            obtain ⟨x, y, hpx, hpy, -⟩ := parse_some_of_daysDiff_lt hbbdd
            rw [hpx, hpy]
            simp only []
            by_cases hlt : daysDiff imp.date e.txnDate < (x - y).natAbs
            · rw [if_pos hlt]
              exact ih (fun z hz => by rw [Option.some.injEq] at hz
                                       rw [← hz]; exact hpass)
                ⟨w, hwrest, hwt⟩
            · rw [if_neg hlt]
              exact ih (fun z hz => by rw [Option.some.injEq] at hz
                                       rw [← hz]; exact hb bb rfl)
                ⟨w, hwrest, hwt⟩
    · rw [if_neg hg]
      have hne : w ≠ e := by
        intro heq
        subst heq
        exact absurd hwgate (by simp [hg])
      have hwrest : w ∈ rest := by
        rcases List.mem_cons.mp hwmem with h1 | h1
        · exact absurd h1 hne
        · exact h1
      exact ih hb ⟨w, hwrest, hwt⟩

/-! ### The probable-selection fold and its specification -/

/-- Day distance of a statement/ledger pair. -/
def ddN (imp : ImpTxn) (ex : ExTxn) : Nat :=
  daysDiff imp.date ex.txnDate

/-- The pure content of the candidate loop when no exact match fires: keep
the gate-passing candidate with the strictly smallest day distance (ties
keep the earlier candidate). -/
def selectBest (imp : ImpTxn) (tol : Int) :
    List ExTxn → Option ExTxn → Option ExTxn
  | [], b => b
  | ex :: rest, b =>
    if passesGates imp tol ex then
      match b with
      | none => selectBest imp tol rest (some ex)
      | some c =>
        if ddN imp ex < ddN imp c then selectBest imp tol rest (some ex)
        else selectBest imp tol rest (some c)
    else selectBest imp tol rest b

/-- First element of `ps` whose measure `d` is minimal over `ps` (the first
element that is ≤ every element). -/
def firstMinBy {α : Type} (d : α → Nat) (ps : List α) : Option α :=
  ps.find? (fun x => ps.all (fun y => decide (d x ≤ d y)))

/-- When no candidate fires the exact branch and the tolerance is below the
999 sentinel, the candidate loop neither errors nor returns `Exact`: it is
the pure best-candidate fold. -/
theorem matchLoop_eq_selectBest {imp : ImpTxn} {tol : Int} (htol : tol < 999) :
    ∀ {l : List ExTxn} {b : Option ExTxn},
    (∀ x, b = some x → passesGates imp tol x = true) →
    (∀ w ∈ l, exactTrigger imp tol w = false) →
    matchLoop imp tol l b =
      .ok ((selectBest imp tol l b).map (fun c => (MatchType.probable, c))) := by
  intro l
  induction l with
  | nil =>
    intro b _ _
    rfl
  | cons e rest ih =>
    intro b hb hno
    have hnoe := hno e (List.mem_cons_self _ _)
    have hnorest : ∀ w ∈ rest, exactTrigger imp tol w = false :=
      fun w hw => hno w (List.mem_cons_of_mem _ hw)
    rw [matchLoop.eq_def, selectBest.eq_def]
    simp only []
    by_cases hg : amountGate imp.amount e.amount = true
    · rw [if_pos hg]
      by_cases hd : (daysDiff imp.date e.txnDate : Int) > tol
      · rw [if_pos hd]
        have hpf : passesGates imp tol e = false := by
          simp only [passesGates, Bool.and_eq_true, decide_eq_true_eq,
            Bool.and_eq_false_iff]
          right
          simp only [decide_eq_false_iff_not]
          omega
        rw [if_neg (by simp [hpf])]
        exact ih hb hnorest
      · rw [if_neg hd]
        have hpass : passesGates imp tol e = true := by
          simp only [passesGates, Bool.and_eq_true, decide_eq_true_eq]
          exact ⟨hg, by omega⟩
        have he :
            (decide (daysDiff imp.date e.txnDate = 0) && idMatch imp e) = false := by
          by_contra hcon
          rw [Bool.not_eq_false] at hcon
          simp only [Bool.and_eq_true, decide_eq_true_eq] at hcon
          have : exactTrigger imp tol e = true := by
            simp only [exactTrigger, Bool.and_eq_true, beq_iff_eq]
            exact ⟨⟨hpass, hcon.1⟩, hcon.2⟩
          rw [this] at hnoe
          exact absurd hnoe (by simp)
        rw [if_neg (by simp [he]), if_pos hpass]
        cases b with
        | none =>
          simp only []
          exact ih (fun z hz => by rw [Option.some.injEq] at hz
                                   rw [← hz]; exact hpass) hnorest
        | some bb =>
          simp only []
          have hbbpass := hb bb rfl
          have hbbdd : daysDiff imp.date bb.txnDate < 999 := by
            simp only [passesGates, Bool.and_eq_true, decide_eq_true_eq]
              at hbbpass
            omega
          obtain ⟨x, y, hpx, hpy, hdd⟩ := parse_some_of_daysDiff_lt hbbdd
          rw [hpx, hpy]
          simp only []
          have hddN : ddN imp bb = (x - y).natAbs := hdd
          by_cases hlt : daysDiff imp.date e.txnDate < (x - y).natAbs
          · rw [if_pos hlt, if_pos (by rw [hddN]; exact hlt)]
            exact ih (fun z hz => by rw [Option.some.injEq] at hz
                                     rw [← hz]; exact hpass) hnorest
          · rw [if_neg hlt, if_neg (by rw [hddN]; exact hlt)]
            exact ih (fun z hz => by rw [Option.some.injEq] at hz
                                     rw [← hz]; exact hb bb rfl) hnorest
    · rw [if_neg hg]
      have hpf : passesGates imp tol e = false := by
        simp only [passesGates, Bool.and_eq_false_iff]
        left
        exact (Bool.not_eq_true _).mp hg
      rw [if_neg (by simp [hpf])]
      exact ih hb hnorest

theorem findq_congr {α : Type} {p q : α → Bool} :
    ∀ (l : List α), (∀ y ∈ l, p y = q y) → l.find? p = l.find? q := by
  intro l
  induction l with
  | nil => intro _; rfl
  | cons a t ih =>
    intro h
    have ha := h a (List.mem_cons_self _ _)
    have ht := ih (fun y hy => h y (List.mem_cons_of_mem _ hy))
    cases hq : q a with
    | true =>
      rw [List.find?_cons_of_pos _ (ha.trans hq), List.find?_cons_of_pos _ hq]
    | false =>
      rw [List.find?_cons_of_neg _ (by simp [ha, hq]),
        List.find?_cons_of_neg _ (by simp [hq]), ht]

theorem firstMinBy_cons_skip {α : Type} (d : α → Nat) (c x : α) (ps : List α)
    (h : d x < d c) :
    firstMinBy d (c :: x :: ps) = firstMinBy d (x :: ps) := by
  unfold firstMinBy
  have hc : ((c :: x :: ps).all (fun y => decide (d c ≤ d y))) = false := by
    simp only [List.all_cons, Bool.and_eq_false_iff]
    right
    left
    simp only [decide_eq_false_iff_not]
    omega
  rw [List.find?_cons_of_neg _ (by simp [hc])]
  apply findq_congr
  intro y hy
  simp only [List.all_cons, decide_eq_true_eq]
  by_cases hyx : d y ≤ d x
  · have : d y ≤ d c := by omega
    simp [this, hyx]
  · simp [hyx]

theorem firstMinBy_cons_keep {α : Type} (d : α → Nat) (c x : α) (ps : List α)
    (h : d c ≤ d x) :
    firstMinBy d (c :: x :: ps) = firstMinBy d (c :: ps) := by
  unfold firstMinBy
  have hcL : ((c :: x :: ps).all (fun y => decide (d c ≤ d y)))
      = ps.all (fun y => decide (d c ≤ d y)) := by
    simp [List.all_cons, h]
  have hcR : ((c :: ps).all (fun y => decide (d c ≤ d y)))
      = ps.all (fun y => decide (d c ≤ d y)) := by
    simp [List.all_cons]
  cases hv : ps.all (fun y => decide (d c ≤ d y)) with
  | true =>
    rw [List.find?_cons_of_pos _ (by rw [hcL, hv]),
      List.find?_cons_of_pos _ (by rw [hcR, hv])]
  | false =>
    rw [List.find?_cons_of_neg _ (by rw [hcL, hv]; simp)]
    have hx : ((c :: x :: ps).all (fun y => decide (d x ≤ d y))) = false := by
      by_contra hcon
      rw [Bool.not_eq_false] at hcon
      simp only [List.all_cons, Bool.and_eq_true, decide_eq_true_eq] at hcon
      obtain ⟨hxc, -, hxs⟩ := hcon
      have : ps.all (fun y => decide (d c ≤ d y)) = true := by
        rw [List.all_eq_true]
        intro y hy
        rw [List.all_eq_true] at hxs
        have := hxs y hy
        simp only [decide_eq_true_eq] at this ⊢
        omega
      rw [this] at hv
      exact absurd hv (by simp)
    rw [List.find?_cons_of_neg _ (by simp [hx]),
      List.find?_cons_of_neg _ (by rw [hcR, hv]; simp)]
    apply findq_congr
    intro y hy
    simp only [List.all_cons, decide_eq_true_eq]
    by_cases hyc : d y ≤ d c
    · have : d y ≤ d x := by omega
      simp [this, hyc]
    · simp [hyc]

theorem selectBest_some_eq (imp : ImpTxn) (tol : Int) :
    ∀ (l : List ExTxn) (c : ExTxn),
    selectBest imp tol l (some c) =
      firstMinBy (ddN imp) (c :: l.filter (passesGates imp tol)) := by
  intro l
  induction l with
  | nil =>
    intro c
    simp [selectBest, firstMinBy]
  | cons e rest ih =>
    intro c
    rw [selectBest.eq_def]
    simp only []
    by_cases hp : passesGates imp tol e = true
    · rw [if_pos hp, List.filter_cons_of_pos hp]
      by_cases hlt : ddN imp e < ddN imp c
      · rw [if_pos hlt, ih e, firstMinBy_cons_skip _ _ _ _ hlt]
      · rw [if_neg hlt, ih c, firstMinBy_cons_keep _ _ _ _ (by omega)]
    · rw [if_neg hp, List.filter_cons_of_neg (by simpa using hp)]
      exact ih c

theorem selectBest_none_eq (imp : ImpTxn) (tol : Int) :
    ∀ (l : List ExTxn),
    selectBest imp tol l none =
      firstMinBy (ddN imp) (l.filter (passesGates imp tol)) := by
  intro l
  induction l with
  | nil => rfl
  | cons e rest ih =>
    rw [selectBest.eq_def]
    simp only []
    by_cases hp : passesGates imp tol e = true
    · rw [if_pos hp, List.filter_cons_of_pos hp]
      exact selectBest_some_eq imp tol rest e
    · rw [if_neg hp, List.filter_cons_of_neg (by simpa using hp)]
      exact ih

theorem exists_min_mem {α : Type} (d : α → Nat) :
    ∀ (ps : List α), ps ≠ [] → ∃ x ∈ ps, ∀ y ∈ ps, d x ≤ d y := by
  intro ps
  induction ps with
  | nil => intro h; exact absurd rfl h
  | cons a t ih =>
    intro _
    cases t with
    | nil =>
      refine ⟨a, List.mem_cons_self _ _, ?_⟩
      intro y hy
      rcases List.mem_cons.mp hy with h1 | h1
      · subst h1; exact le_refl _
      · exact absurd h1 (List.not_mem_nil y)
    | cons b s =>
      obtain ⟨x, hxmem, hxmin⟩ := ih (by simp)
      by_cases hax : d a ≤ d x
      · refine ⟨a, List.mem_cons_self _ _, ?_⟩
        intro y hy
        rcases List.mem_cons.mp hy with h1 | h1
        · subst h1; exact le_refl _
        · exact le_trans hax (hxmin y h1)
      · refine ⟨x, List.mem_cons_of_mem _ hxmem, ?_⟩
        intro y hy
        rcases List.mem_cons.mp hy with h1 | h1
        · subst h1; omega
        · exact hxmin y h1

theorem firstMinBy_isSome {α : Type} (d : α → Nat) (ps : List α)
    (h : ps ≠ []) : ∃ b, firstMinBy d ps = some b := by
  obtain ⟨x, hxmem, hxmin⟩ := exists_min_mem d ps h
  unfold firstMinBy
  have : (ps.find? (fun z => ps.all (fun y => decide (d z ≤ d y)))).isSome := by
    rw [List.find?_isSome]
    refine ⟨x, hxmem, ?_⟩
    rw [List.all_eq_true]
    intro y hy
    simp only [decide_eq_true_eq]
    exact hxmin y hy
  exact Option.isSome_iff_exists.mp this

/-! ### Lexicographic-order lemmas for session-file selection -/

theorem lexLt_irrefl : ∀ (l : List Char), lexLt l l = false := by
  intro l
  induction l with
  | nil => rfl
  | cons c cs ih => simp [lexLt, ih]

theorem lexLt_trans : ∀ (a b c : List Char),
    lexLt a b = true → lexLt b c = true → lexLt a c = true := by
  intro a
  induction a with
  | nil =>
    intro b c hab hbc
    cases c with
    | nil =>
      cases b with
      | nil => exact hab
      | cons y ys => simp [lexLt] at hbc
    | cons z zs => rfl
  | cons x xs ih =>
    intro b c hab hbc
    cases b with
    | nil => simp [lexLt] at hab
    | cons y ys =>
      cases c with
      | nil => simp [lexLt] at hbc
      | cons z zs =>
        simp only [lexLt, Bool.or_eq_true, Bool.and_eq_true,
          decide_eq_true_eq, beq_iff_eq] at hab hbc ⊢
        rcases hab with h1 | ⟨h1, h1'⟩
        · rcases hbc with h2 | ⟨h2, h2'⟩
          · exact Or.inl (lt_trans h1 h2)
          · exact Or.inl (h2 ▸ h1)
        · rcases hbc with h2 | ⟨h2, h2'⟩
          · exact Or.inl (h1 ▸ h2)
          · exact Or.inr ⟨h1.trans h2, ih ys zs h1' h2'⟩

theorem lexLt_append_left : ∀ (p a b : List Char),
    lexLt (p ++ a) (p ++ b) = lexLt a b := by
  intro p
  induction p with
  | nil => intro a b; rfl
  | cons c cs ih => intro a b; simp [lexLt, ih]

theorem lexLt_append_same_len : ∀ (a b s : List Char),
    a.length = b.length → lexLt (a ++ s) (b ++ s) = lexLt a b := by
  intro a
  induction a with
  | nil =>
    intro b s hlen
    cases b with
    | nil => simp [lexLt_irrefl]
    | cons y ys => simp at hlen
  | cons x xs ih =>
    intro b s hlen
    cases b with
    | nil => simp at hlen
    | cons y ys =>
      simp only [List.length_cons, Nat.succ.injEq] at hlen
      simp [lexLt, ih ys s hlen]

theorem listIsPrefix_append_self : ∀ (p r : List Char),
    listIsPrefix p (p ++ r) = true := by
  intro p
  induction p with
  | nil => intro r; rfl
  | cons c cs ih => intro r; simp [listIsPrefix, ih]

theorem insertDesc_eq : ∀ (x y : String) (ys : List String),
    insertDesc x (y :: ys) =
      if lexLt y.data x.data then x :: y :: ys else y :: insertDesc x ys := by
  intro x y ys
  rfl

/-- The head of `sortDesc l` is a lexicographic maximum of `l`. -/
theorem sortDesc_head_max : ∀ (l : List String), l ≠ [] →
    ∃ h t, sortDesc l = h :: t ∧ h ∈ l
      ∧ ∀ y ∈ l, lexLt h.data y.data = false := by
  intro l
  induction l with
  | nil => intro h; exact absurd rfl h
  | cons x xs ih =>
    intro _
    cases xs with
    | nil =>
      refine ⟨x, [], rfl, List.mem_cons_self _ _, ?_⟩
      intro y hy
      rcases List.mem_cons.mp hy with h1 | h1
      · subst h1; exact lexLt_irrefl _
      · exact absurd h1 (List.not_mem_nil y)
    | cons b s =>
      obtain ⟨h, t, hsort, hmem, hmax⟩ := ih (by simp)
      have hstep : sortDesc (x :: b :: s) = insertDesc x (h :: t) := by
        rw [show sortDesc (x :: b :: s) = insertDesc x (sortDesc (b :: s))
          from rfl, hsort]
      by_cases hc : lexLt h.data x.data = true
      · refine ⟨x, h :: t, ?_, List.mem_cons_self _ _, ?_⟩
        · rw [hstep, insertDesc_eq, if_pos hc]
        · intro y hy
          rcases List.mem_cons.mp hy with h1 | h1
          · subst h1; exact lexLt_irrefl _
          · by_contra hcon
            rw [Bool.not_eq_false] at hcon
            have := lexLt_trans _ _ _ hc hcon
            rw [hmax y h1] at this
            exact absurd this (by simp)
      · refine ⟨h, insertDesc x t, ?_, List.mem_cons_of_mem _ hmem, ?_⟩
        · rw [hstep, insertDesc_eq, if_neg hc]
        · intro y hy
          rcases List.mem_cons.mp hy with h1 | h1
          · subst h1
            exact (Bool.not_eq_true _).mp hc
          · exact hmax y h1

theorem sessionFileName_data (aid d : String) :
    (sessionFileName aid d).data =
      ("reconcile_" ++ aid ++ "_").data ++ (d.data ++ ".json".data) := by
  unfold sessionFileName
  simp [String.data_append, List.append_assoc]

theorem sessionFileName_matches (aid d : String) :
    matchesSessionGlob aid (sessionFileName aid d) = true := by
  unfold matchesSessionGlob
  simp only [Bool.and_eq_true, decide_eq_true_eq]
  refine ⟨⟨?_, ?_⟩, ?_⟩
  · rw [sessionFileName_data]
    exact listIsPrefix_append_self _ _
  · unfold listIsSuffix
    rw [sessionFileName_data, show (d.data ++ ".json".data)
        = d.data ++ ".json".data from rfl, ← List.append_assoc,
      List.reverse_append]
    exact listIsPrefix_append_self _ _
  · rw [sessionFileName_data]
    simp
    omega

/-! ### Single-step evaluation lemmas for the candidate loop -/

theorem matchLoop_nil (imp : ImpTxn) (tol : Int) (b : Option ExTxn) :
    matchLoop imp tol [] b = .ok (b.map (fun c => (MatchType.probable, c))) :=
  rfl

theorem matchLoop_cons_gateFail {imp : ImpTxn} {ex : ExTxn}
    (tol : Int) (rest : List ExTxn) (b : Option ExTxn)
    (h : amountGate imp.amount ex.amount = false) :
    matchLoop imp tol (ex :: rest) b = matchLoop imp tol rest b := by
  rw [matchLoop.eq_def]
  simp only []
  rw [if_neg (by simp [h])]

theorem matchLoop_cons_dateFail {imp : ImpTxn} {ex : ExTxn} {tol : Int}
    (rest : List ExTxn) (b : Option ExTxn)
    (hg : amountGate imp.amount ex.amount = true)
    (hd : (daysDiff imp.date ex.txnDate : Int) > tol) :
    matchLoop imp tol (ex :: rest) b = matchLoop imp tol rest b := by
  rw [matchLoop.eq_def]
  simp only []
  rw [if_pos hg, if_pos hd]

theorem matchLoop_cons_exactHit {imp : ImpTxn} {ex : ExTxn} {tol : Int}
    (rest : List ExTxn) (b : Option ExTxn)
    (hg : amountGate imp.amount ex.amount = true)
    (hd : ¬ (daysDiff imp.date ex.txnDate : Int) > tol)
    (he : (decide (daysDiff imp.date ex.txnDate = 0) && idMatch imp ex) = true) :
    matchLoop imp tol (ex :: rest) b = .ok (some (MatchType.exact, ex)) := by
  rw [matchLoop.eq_def]
  simp only []
  rw [if_pos hg, if_neg hd, if_pos he]

theorem matchLoop_cons_firstBest {imp : ImpTxn} {ex : ExTxn} {tol : Int}
    (rest : List ExTxn)
    (hg : amountGate imp.amount ex.amount = true)
    (hd : ¬ (daysDiff imp.date ex.txnDate : Int) > tol)
    (he : (decide (daysDiff imp.date ex.txnDate = 0) && idMatch imp ex) = false) :
    matchLoop imp tol (ex :: rest) none = matchLoop imp tol rest (some ex) := by
  rw [matchLoop.eq_def]
  simp only []
  rw [if_pos hg, if_neg hd, if_neg (by simp [he])]

theorem matchLoop_cons_better {imp : ImpTxn} {ex bb : ExTxn} {tol : Int}
    {x y : Int} (rest : List ExTxn)
    (hg : amountGate imp.amount ex.amount = true)
    (hd : ¬ (daysDiff imp.date ex.txnDate : Int) > tol)
    (he : (decide (daysDiff imp.date ex.txnDate = 0) && idMatch imp ex) = false)
    (hpx : parseDate imp.date = some x) (hpy : parseDate bb.txnDate = some y)
    (hlt : daysDiff imp.date ex.txnDate < (x - y).natAbs) :
    matchLoop imp tol (ex :: rest) (some bb) =
      matchLoop imp tol rest (some ex) := by
  rw [matchLoop.eq_def]
  simp only []
  rw [if_pos hg, if_neg hd, if_neg (by simp [he]), hpx, hpy]
  simp only []
  rw [if_pos hlt]

theorem matchLoop_cons_keepBest {imp : ImpTxn} {ex bb : ExTxn} {tol : Int}
    {x y : Int} (rest : List ExTxn)
    (hg : amountGate imp.amount ex.amount = true)
    (hd : ¬ (daysDiff imp.date ex.txnDate : Int) > tol)
    (he : (decide (daysDiff imp.date ex.txnDate = 0) && idMatch imp ex) = false)
    (hpx : parseDate imp.date = some x) (hpy : parseDate bb.txnDate = some y)
    (hlt : ¬ daysDiff imp.date ex.txnDate < (x - y).natAbs) :
    matchLoop imp tol (ex :: rest) (some bb) =
      matchLoop imp tol rest (some bb) := by
  rw [matchLoop.eq_def]
  simp only []
  rw [if_pos hg, if_neg hd, if_neg (by simp [he]), hpx, hpy]
  simp only []
  rw [if_neg hlt]

theorem matchLoop_cons_crash {imp : ImpTxn} {ex bb : ExTxn} {tol : Int}
    (rest : List ExTxn)
    (hg : amountGate imp.amount ex.amount = true)
    (hd : ¬ (daysDiff imp.date ex.txnDate : Int) > tol)
    (he : (decide (daysDiff imp.date ex.txnDate = 0) && idMatch imp ex) = false)
    (hpy : parseDate bb.txnDate = none) :
    matchLoop imp tol (ex :: rest) (some bb) = .error () := by
  rw [matchLoop.eq_def]
  simp only []
  rw [if_pos hg, if_neg hd, if_neg (by simp [he]), hpy]
  cases parseDate imp.date <;> rfl

theorem _match_transactions_cons_exact (imp : ImpTxn) (rest : List ImpTxn)
    (existing : List ExTxn) (tol : Int) {ex : ExTxn} {res : MatchResult}
    (h1 : matchOne imp existing tol = .ok (some (MatchType.exact, ex)))
    (h2 : _match_transactions rest existing tol = .ok res) :
    _match_transactions (imp :: rest) existing tol =
      .ok ⟨(imp, ex) :: res.matched, res.probable, res.unmatched⟩ := by
  rw [_match_transactions.eq_def]
  simp only [h1, h2]

theorem _match_transactions_cons_probable (imp : ImpTxn) (rest : List ImpTxn)
    (existing : List ExTxn) (tol : Int) {ex : ExTxn} {res : MatchResult}
    (h1 : matchOne imp existing tol = .ok (some (MatchType.probable, ex)))
    (h2 : _match_transactions rest existing tol = .ok res) :
    _match_transactions (imp :: rest) existing tol =
      .ok ⟨res.matched, (imp, ex) :: res.probable, res.unmatched⟩ := by
  rw [_match_transactions.eq_def]
  simp only [h1, h2]

theorem _match_transactions_cons_unmatched (imp : ImpTxn) (rest : List ImpTxn)
    (existing : List ExTxn) (tol : Int) {res : MatchResult}
    (h1 : matchOne imp existing tol = .ok none)
    (h2 : _match_transactions rest existing tol = .ok res) :
    _match_transactions (imp :: rest) existing tol =
      .ok ⟨res.matched, res.probable, imp :: res.unmatched⟩ := by
  rw [_match_transactions.eq_def]
  simp only [h1, h2]

/-! ## Claims -/

/-- C1, counterexample.  "No ledger record id appears in more than one
Exact/Probable outcome" is false: the matcher keeps no claimed-set, so two
identical statement records both produce a `Probable` outcome against the
single ledger record with id "7" — that id appears in two outcomes of the
same run. -/
theorem c1_counterexample :
    (_match_transactions
        [⟨"2026-03-01", 100, "", "", ""⟩, ⟨"2026-03-01", 100, "", "", ""⟩]
        [⟨100, "2026-03-01", "", "", "7"⟩] 3).map
      (fun r => r.probable.map (fun q => q.2.id)) = .ok ["7", "7"] := by
  have hone : matchOne ⟨"2026-03-01", 100, "", "", ""⟩
      [⟨100, "2026-03-01", "", "", "7"⟩] 3 =
      .ok (some (MatchType.probable, ⟨100, "2026-03-01", "", "", "7"⟩)) := by
    unfold matchOne
    rw [matchLoop_cons_firstBest _
        (by simp only [amountGate, decide_eq_true_eq]; norm_num)
        (by rw [show daysDiff "2026-03-01" "2026-03-01" = 0 from rfl]; norm_num)
        (by rfl),
      matchLoop_nil]
    rfl
  have h1 : _match_transactions [(⟨"2026-03-01", 100, "", "", ""⟩ : ImpTxn)]
      [⟨100, "2026-03-01", "", "", "7"⟩] 3 =
      .ok ⟨[], [(⟨"2026-03-01", 100, "", "", ""⟩,
                 ⟨100, "2026-03-01", "", "", "7"⟩)], []⟩ := by
    rw [_match_transactions_cons_probable _ _ _ _ hone (by rfl)]
  have h2 : _match_transactions
      [(⟨"2026-03-01", 100, "", "", ""⟩ : ImpTxn),
       ⟨"2026-03-01", 100, "", "", ""⟩]
      [⟨100, "2026-03-01", "", "", "7"⟩] 3 =
      .ok ⟨[], [(⟨"2026-03-01", 100, "", "", ""⟩,
                 ⟨100, "2026-03-01", "", "", "7"⟩),
                (⟨"2026-03-01", 100, "", "", ""⟩,
                 ⟨100, "2026-03-01", "", "", "7"⟩)], []⟩ := by
    rw [_match_transactions_cons_probable _ _ _ _ hone h1]
  rw [h2]
  rfl

/-- C1, amended.  `_match_transactions` processes each statement record
against the full ledger list, independently of the outcomes of the other
statement records: whenever two statement records individually resolve to a
`Probable` outcome against the same ledger record, a run over both claims
that ledger record twice (no claiming takes place). -/
theorem c1_amended_no_claiming (imp1 imp2 : ImpTxn) (exs : List ExTxn)
    (tol : Int) (ex : ExTxn)
    (h1 : matchOne imp1 exs tol = .ok (some (MatchType.probable, ex)))
    (h2 : matchOne imp2 exs tol = .ok (some (MatchType.probable, ex))) :
    _match_transactions [imp1, imp2] exs tol =
      .ok ⟨[], [(imp1, ex), (imp2, ex)], []⟩ := by
  have hi : _match_transactions [imp2] exs tol = .ok ⟨[], [(imp2, ex)], []⟩ := by
    rw [_match_transactions_cons_probable _ _ _ _ h2 (by rfl)]
  rw [_match_transactions_cons_probable _ _ _ _ h1 hi]

/-- C1, witness for the amended theorem at a concrete input. -/
theorem c1_amended_witness :
    _match_transactions
        [⟨"2026-04-01", 50, "", "", ""⟩, ⟨"2026-04-01", 50, "", "", ""⟩]
        [⟨50, "2026-04-02", "", "", "9"⟩] 3 =
      .ok ⟨[],
        [(⟨"2026-04-01", 50, "", "", ""⟩, ⟨50, "2026-04-02", "", "", "9"⟩),
         (⟨"2026-04-01", 50, "", "", ""⟩, ⟨50, "2026-04-02", "", "", "9"⟩)],
        []⟩ := by
  have h : matchOne ⟨"2026-04-01", 50, "", "", ""⟩
      [⟨50, "2026-04-02", "", "", "9"⟩] 3 =
      .ok (some (MatchType.probable, ⟨50, "2026-04-02", "", "", "9"⟩)) := by
    unfold matchOne
    rw [matchLoop_cons_firstBest _
        (by simp only [amountGate, decide_eq_true_eq]; norm_num)
        (by rw [show daysDiff "2026-04-01" "2026-04-02" = 1 from rfl]; norm_num)
        (by rfl),
      matchLoop_nil]
    rfl
  exact c1_amended_no_claiming _ _ _ _ _ h h

/-- C2.  A statement file that parses to a non-empty record list whose dates
are all empty crashes the import: `dates` is empty, and `min(dates)` raises
an uncaught `ValueError` in both the `import bank` window computation and
the `reconcile match` window computation — the documented raw-window
fallback is never reached. -/
theorem c2_empty_dates_crash :
    bankDateWindow [⟨"", 5, "", "", "deposit"⟩] 3 = .error ()
      ∧ reconcileMatchWindow [⟨"", 5, "", "", "deposit"⟩] = .error ()
      ∧ ([⟨"", (5 : ℚ), "", "", "deposit"⟩] : List ImpTxn) ≠ [] :=
  ⟨rfl, rfl, by simp⟩

/-- C3, counterexample.  With no session on disk, `status` does not fail
with a NotFound error: it returns normally (exit code 0) with a
"none in progress" message. -/
theorem c3_counterexample :
    statusCmd "1" [] =
      { exitCode := 0
        out := .noneInProgress
          "No reconciliation in progress for account 1" } := by
  rfl

/-- C3, amended.  When at least one session file exists for the account,
`status` succeeds (exit code 0) and reads the session whose file name is the
lexicographic maximum — which, for the fixed-width `YYYY-MM-DD` statement
dates written by `start`, is the most recent statement date. -/
theorem c3_amended_status (aid : String) (ds : List String) (hne : ds ≠ [])
    (hlen : ∀ d ∈ ds, d.length = 10) :
    ∃ d0 ∈ ds, (∀ d ∈ ds, lexLt d0.data d.data = false)
      ∧ statusCmd aid (ds.map (sessionFileName aid)) =
          { exitCode := 0, out := .session (sessionFileName aid d0) } := by
  have hfilter : (ds.map (sessionFileName aid)).filter (matchesSessionGlob aid)
      = ds.map (sessionFileName aid) := by
    rw [List.filter_eq_self]
    intro f hf
    obtain ⟨d, -, rfl⟩ := List.mem_map.mp hf
    exact sessionFileName_matches aid d
  have hne' : ds.map (sessionFileName aid) ≠ [] := by
    simpa using hne
  obtain ⟨h, t, hsort, hmem, hmax⟩ :=
    sortDesc_head_max (ds.map (sessionFileName aid)) hne'
  obtain ⟨d0, hd0, rfl⟩ := List.mem_map.mp hmem
  refine ⟨d0, hd0, ?_, ?_⟩
  · intro d hd
    have hmx := hmax (sessionFileName aid d) (List.mem_map_of_mem _ hd)
    rw [sessionFileName_data, sessionFileName_data, lexLt_append_left] at hmx
    have hl : d0.data.length = d.data.length := by
      have e1 : d0.data.length = d0.length := rfl
      have e2 : d.data.length = d.length := rfl
      rw [e1, e2, hlen d0 hd0, hlen d hd]
    rw [show d0.data ++ ".json".data = d0.data ++ ".json".data from rfl,
      lexLt_append_same_len d0.data d.data ".json".data hl] at hmx
    exact hmx
  · unfold statusCmd
    rw [hfilter, hsort]

/-- C3, witness for the amended theorem: an account with two sessions
(statement dates 2026-01-31 and 2026-02-28). -/
theorem c3_amended_witness :
    ∃ d0 ∈ ["2026-01-31", "2026-02-28"],
      (∀ d ∈ ["2026-01-31", "2026-02-28"], lexLt d0.data d.data = false)
      ∧ statusCmd "9"
          (["2026-01-31", "2026-02-28"].map (sessionFileName "9")) =
          { exitCode := 0, out := .session (sessionFileName "9" d0) } :=
  c3_amended_status "9" ["2026-01-31", "2026-02-28"] (by simp) (by decide)

/-- C4, counterexample.  An identifier-matching same-day candidate (fitid
"F1", day distance 0) exists together with an amount/date-compatible
candidate, yet the statement record is relegated to `Probable` against the
other candidate: the identifier candidate fails the 0.01 amount gate
(its amount is 50 against the statement's 100) and is skipped before the
identifier test is ever reached. -/
theorem c4_counterexample :
    matchOne ⟨"2026-03-01", 100, "F1", "", ""⟩
        [⟨50, "2026-03-01", "", "F1", "1"⟩, ⟨100, "2026-03-02", "", "", "2"⟩] 3
      = .ok (some (MatchType.probable, ⟨100, "2026-03-02", "", "", "2"⟩))
    ∧ idMatch ⟨"2026-03-01", 100, "F1", "", ""⟩
        ⟨50, "2026-03-01", "", "F1", "1"⟩ = true
    ∧ daysDiff "2026-03-01" "2026-03-01" = 0 := by
  refine ⟨?_, rfl, rfl⟩
  unfold matchOne
  rw [matchLoop_cons_gateFail _ _ _
      (by simp only [amountGate, decide_eq_false_iff_not]; norm_num),
    matchLoop_cons_firstBest _
      (by simp only [amountGate, decide_eq_true_eq]; norm_num)
      (by rw [show daysDiff "2026-03-01" "2026-03-02" = 1 from rfl]; norm_num)
      (by rfl),
    matchLoop_nil]
  rfl

/-- C4, amended.  Provided the identifier-matching same-day candidate also
passes the 0.01 amount gate and the tolerance is below the 999-day sentinel
used for unparseable dates, the matcher returns an `Exact` outcome against
an identifier-matching, gate-passing, distance-0 candidate, never relegating
the statement record to `Probable` — in any candidate order. -/
theorem c4_amended_exact_precedence (imp : ImpTxn) (exs : List ExTxn)
    (tol : Int) (htol : tol < 999)
    (hw : ∃ w ∈ exs, exactTrigger imp tol w = true) :
    ∃ ex, matchOne imp exs tol = .ok (some (MatchType.exact, ex))
      ∧ amountGate imp.amount ex.amount = true
      ∧ daysDiff imp.date ex.txnDate = 0 ∧ idMatch imp ex = true := by
  obtain ⟨ex, hex⟩ :=
    matchLoop_exact_of_mem htol (b := none) (fun x hx => nomatch hx) hw
  have props := matchLoop_exact_props hex
  exact ⟨ex, hex, props.2.1, props.2.2.1, props.2.2.2⟩

/-- C4, witness at a concrete input: a closer-but-unidentified candidate is
listed first, the check-number-matching same-day candidate second. -/
theorem c4_amended_witness :
    ∃ ex, matchOne ⟨"2026-03-01", -42.5, "", "1001", ""⟩
        [⟨42.5, "2026-03-02", "", "", "8"⟩, ⟨42.5, "2026-03-01", "1001", "", "5"⟩]
        3 = .ok (some (MatchType.exact, ex))
      ∧ amountGate (-42.5 : ℚ) ex.amount = true
      ∧ daysDiff "2026-03-01" ex.txnDate = 0
      ∧ idMatch ⟨"2026-03-01", -42.5, "", "1001", ""⟩ ex = true := by
  exact c4_amended_exact_precedence _ _ 3 (by norm_num)
    ⟨⟨42.5, "2026-03-01", "1001", "", "5"⟩,
     List.mem_cons_of_mem _ (List.mem_cons_self _ _),
     by
      simp only [exactTrigger, passesGates, Bool.and_eq_true,
        decide_eq_true_eq]
      refine ⟨⟨⟨?_, ?_⟩, ?_⟩, ?_⟩
      · simp only [amountGate, decide_eq_true_eq]
        norm_num
      · rw [show daysDiff "2026-03-01" "2026-03-01" = 0 from rfl]
        norm_num
      · rfl
      · rfl⟩

/-- C5, counterexample.  With tolerance 1000 (≥ the 999 sentinel), a
candidate with an unparseable date passes both gates, becomes `best_match`,
and the comparison against the next candidate re-parses its date without a
guard: the whole run aborts with an uncaught ValueError even though a
gate-passing candidate exists and no exact match interferes — no `Probable`
outcome is produced. -/
theorem c5_counterexample :
    matchOne ⟨"2026-03-01", 100, "", "", ""⟩
        [⟨100, "bad-date", "", "", "1"⟩, ⟨100, "2026-03-02", "", "", "2"⟩] 1000
      = .error ()
    ∧ passesGates ⟨"2026-03-01", 100, "", "", ""⟩ 1000
        ⟨100, "2026-03-02", "", "", "2"⟩ = true
    ∧ exactTrigger ⟨"2026-03-01", 100, "", "", ""⟩ 1000
        ⟨100, "bad-date", "", "", "1"⟩ = false
    ∧ exactTrigger ⟨"2026-03-01", 100, "", "", ""⟩ 1000
        ⟨100, "2026-03-02", "", "", "2"⟩ = false := by
  refine ⟨?_, ?_, ?_, ?_⟩
  · unfold matchOne
    rw [matchLoop_cons_firstBest _
        (by simp only [amountGate, decide_eq_true_eq]; norm_num)
        (by rw [show daysDiff "2026-03-01" "bad-date" = 999 from rfl]; norm_num)
        (by rfl),
      matchLoop_cons_crash _
        (by simp only [amountGate, decide_eq_true_eq]; norm_num)
        (by rw [show daysDiff "2026-03-01" "2026-03-02" = 1 from rfl]; norm_num)
        (by rfl) (by rfl)]
  · simp only [passesGates, Bool.and_eq_true, decide_eq_true_eq]
    refine ⟨?_, ?_⟩
    · simp only [amountGate, decide_eq_true_eq]
      norm_num
    · rw [show daysDiff "2026-03-01" "2026-03-02" = 1 from rfl]
      norm_num
  · simp [exactTrigger, show daysDiff "2026-03-01" "bad-date" = 999 from rfl]
  · simp [exactTrigger, show daysDiff "2026-03-01" "2026-03-02" = 1 from rfl]

/-- C5, amended.  Provided the tolerance is below the 999-day sentinel: when
no candidate fires the exact branch and at least one candidate passes both
gates, the matcher returns a `Probable` outcome against the first
gate-passing candidate whose day distance is minimal among all gate-passing
candidates (smallest distance wins; on ties the earliest-considered
candidate wins). -/
theorem c5_amended_probable_best (imp : ImpTxn) (exs : List ExTxn) (tol : Int)
    (htol : tol < 999)
    (hnoex : ∀ w ∈ exs, exactTrigger imp tol w = false)
    (hpass : ∃ p ∈ exs, passesGates imp tol p = true) :
    ∃ best, firstMinBy (ddN imp) (exs.filter (passesGates imp tol)) = some best
      ∧ matchOne imp exs tol = .ok (some (MatchType.probable, best)) := by
  have heq :=
    matchLoop_eq_selectBest htol (b := none) (fun x hx => nomatch hx) hnoex
  rw [selectBest_none_eq] at heq
  have hne : exs.filter (passesGates imp tol) ≠ [] := by
    obtain ⟨p, hp, hpp⟩ := hpass
    intro hnil
    have hmem : p ∈ exs.filter (passesGates imp tol) :=
      List.mem_filter.mpr ⟨hp, hpp⟩
    rw [hnil] at hmem
    exact absurd hmem (List.not_mem_nil p)
  obtain ⟨best, hbest⟩ := firstMinBy_isSome (ddN imp) _ hne
  refine ⟨best, hbest, ?_⟩
  show matchLoop imp tol exs none = _
  rw [heq, hbest]
  rfl

/-- C5, witness: Scenario B — amount 100.00 on 2026-03-01 against candidates
dated 2026-03-02 and 2026-03-04 with tolerance 3 yields `Probable` against
the 2026-03-02 candidate (smaller distance). -/
theorem c5_amended_witness :
    ∃ best,
      firstMinBy (ddN ⟨"2026-03-01", 100, "", "", ""⟩)
        (([⟨100, "2026-03-02", "", "", "21"⟩, ⟨100, "2026-03-04", "", "", "22"⟩]
            : List ExTxn).filter
          (passesGates ⟨"2026-03-01", 100, "", "", ""⟩ 3)) = some best
      ∧ matchOne ⟨"2026-03-01", 100, "", "", ""⟩
          [⟨100, "2026-03-02", "", "", "21"⟩, ⟨100, "2026-03-04", "", "", "22"⟩]
          3 = .ok (some (MatchType.probable, best)) := by
  refine c5_amended_probable_best _ _ 3 (by norm_num) ?_ ?_
  · intro w hw
    rcases List.mem_cons.mp hw with h1 | h1
    · subst h1
      simp [exactTrigger, idMatch]
    · rcases List.mem_cons.mp h1 with h2 | h2
      · subst h2
        simp [exactTrigger, idMatch]
      · exact absurd h2 (List.not_mem_nil w)
  · refine ⟨⟨100, "2026-03-02", "", "", "21"⟩, List.mem_cons_self _ _, ?_⟩
    simp only [passesGates, Bool.and_eq_true, decide_eq_true_eq]
    refine ⟨?_, ?_⟩
    · simp only [amountGate, decide_eq_true_eq]
      norm_num
    · rw [show daysDiff "2026-03-01" "2026-03-02" = 1 from rfl]
      norm_num

/-- C6, counterexample.  A statement record with amount exactly zero is
matched (`Probable`) against a ledger record with the non-zero amount 0.01:
the gate `abs(abs(0) - abs(0.01)) > 0.01` does not fire, so "zero matches
only zero" is false. -/
theorem c6_counterexample :
    matchOne ⟨"2026-03-01", 0, "", "", ""⟩ [⟨1 / 100, "2026-03-01", "", "", "9"⟩] 3
      = .ok (some (MatchType.probable, ⟨1 / 100, "2026-03-01", "", "", "9"⟩))
    ∧ ((1 : ℚ) / 100 ≠ 0) := by
  constructor
  · unfold matchOne
    rw [matchLoop_cons_firstBest _
        (by simp only [amountGate, decide_eq_true_eq]; norm_num [abs_le])
        (by rw [show daysDiff "2026-03-01" "2026-03-01" = 0 from rfl]; norm_num)
        (by rfl),
      matchLoop_nil]
    rfl
  · norm_num

/-- C6, amended.  A zero-amount statement record can only be matched (Exact
or Probable) against ledger records whose absolute amount is at most 0.01 —
not only against zero, since a 0.01-magnitude ledger amount passes the gate;
and the amount gate ignores sign entirely (it depends only on the
magnitudes of the two amounts). -/
theorem c6_amended_zero_amount :
    (∀ (imp : ImpTxn) (exs : List ExTxn) (tol : Int) (mt : MatchType)
        (ex : ExTxn), imp.amount = 0 →
        matchOne imp exs tol = .ok (some (mt, ex)) →
        |ex.amount| ≤ 1 / 100)
    ∧ (∀ a b : ℚ, amountGate (-a) b = amountGate a b
        ∧ amountGate a (-b) = amountGate a b) := by
  constructor
  · intro imp exs tol mt ex h0 hrun
    have hgate : amountGate imp.amount ex.amount = true := by
      cases mt
      · exact (matchLoop_exact_props hrun).2.1
      · have hp := (matchLoop_probable_props (b := none)
          (fun x hx => nomatch hx) hrun).2
        simp only [passesGates, Bool.and_eq_true] at hp
        exact hp.1
    rw [h0] at hgate
    simp only [amountGate, decide_eq_true_eq] at hgate
    rwa [abs_zero, zero_sub, abs_neg, abs_abs] at hgate
  · intro a b
    constructor <;> simp [amountGate, abs_neg]

/-- C6, witness for the amended theorem: the zero-amount record of the
counterexample run yields a matched ledger amount of magnitude ≤ 0.01. -/
theorem c6_amended_witness :
    |(⟨1 / 100, "2026-03-05", "", "", "11"⟩ : ExTxn).amount| ≤ 1 / 100 := by
  have hrun : matchOne ⟨"2026-03-05", 0, "", "", ""⟩
      [⟨1 / 100, "2026-03-05", "", "", "11"⟩] 3
      = .ok (some (MatchType.probable, ⟨1 / 100, "2026-03-05", "", "", "11"⟩)) := by
    unfold matchOne
    rw [matchLoop_cons_firstBest _
        (by simp only [amountGate, decide_eq_true_eq]; norm_num [abs_le])
        (by rw [show daysDiff "2026-03-05" "2026-03-05" = 0 from rfl]; norm_num)
        (by rfl),
      matchLoop_nil]
    rfl
  exact c6_amended_zero_amount.1 _ _ 3 _ _ rfl hrun

/-- C7, counterexample.  A pair whose statement date is unparseable but
whose fitid matches the ledger record exactly is NOT short-circuited into an
`Exact` outcome: the sentinel distance 999 exceeds the tolerance and the
candidate is skipped before the identifier test, leaving the record
unmatched. -/
theorem c7_counterexample :
    matchOne ⟨"notadate", 50, "F9", "", ""⟩ [⟨50, "2026-01-01", "", "F9", "3"⟩] 3
      = .ok none
    ∧ idMatch ⟨"notadate", 50, "F9", "", ""⟩
        ⟨50, "2026-01-01", "", "F9", "3"⟩ = true
    ∧ parseDate "notadate" = none := by
  refine ⟨?_, rfl, rfl⟩
  unfold matchOne
  rw [matchLoop_cons_dateFail _ _
      (by simp only [amountGate, decide_eq_true_eq]; norm_num)
      (by rw [show daysDiff "notadate" "2026-01-01" = 999 from rfl]; norm_num),
    matchLoop_nil]
  rfl

/-- C7, amended.  With any tolerance below the 999-day sentinel, a pair in
which either date is unparseable is excluded from every outcome: whenever
the matcher selects a ledger record (Exact or Probable), both the statement
date and that ledger record's date parsed successfully.  The identifier
short-circuit never rescues an unparseable-date pair, because the exact
branch requires a computed day distance of 0. -/
theorem c7_amended_unparseable_dates (imp : ImpTxn) (exs : List ExTxn)
    (tol : Int) (mt : MatchType) (ex : ExTxn) (htol : tol < 999)
    (hrun : matchOne imp exs tol = .ok (some (mt, ex))) :
    (parseDate imp.date).isSome ∧ (parseDate ex.txnDate).isSome := by
  have hdd : daysDiff imp.date ex.txnDate < 999 := by
    cases mt
    · have := (matchLoop_exact_props hrun).2.2.1
      omega
    · have hp := (matchLoop_probable_props (b := none)
        (fun x hx => nomatch hx) hrun).2
      simp only [passesGates, Bool.and_eq_true, decide_eq_true_eq] at hp
      omega
  obtain ⟨x, y, hx, hy, -⟩ := parse_some_of_daysDiff_lt hdd
  exact ⟨by rw [hx]; rfl, by rw [hy]; rfl⟩

/-- C7, witness: a parseable same-day pair yields a Probable outcome, and
the amended theorem applied to that run confirms both dates parsed. -/
theorem c7_amended_witness :
    (parseDate "2026-05-01").isSome
      ∧ (parseDate (⟨20, "2026-05-02", "", "", "4"⟩ : ExTxn).txnDate).isSome := by
  have hrun : matchOne ⟨"2026-05-01", 20, "", "", ""⟩
      [⟨20, "2026-05-02", "", "", "4"⟩] 3
      = .ok (some (MatchType.probable, ⟨20, "2026-05-02", "", "", "4"⟩)) := by
    unfold matchOne
    rw [matchLoop_cons_firstBest _
        (by simp only [amountGate, decide_eq_true_eq]; norm_num)
        (by rw [show daysDiff "2026-05-01" "2026-05-02" = 1 from rfl]; norm_num)
        (by rfl),
      matchLoop_nil]
    rfl
  exact c7_amended_unparseable_dates _ _ 3 _ _ (by norm_num) hrun

/-- C8.  `reconcile start` computes `difference = round(statementBalance -
ledgerBalance, 2)` and classifies `balanced` iff `|difference| < 0.01`; at
the boundary, statement balance 1000.00 against ledger balance 999.99 gives
difference exactly 0.01, which is NOT `< 0.01`, hence `unbalanced`. -/
theorem c8_confirmed_balance_boundary :
    (∀ sb qb : ℚ, (startSession sb qb).difference = pyRound2 (sb - qb)
      ∧ ((startSession sb qb).status = "balanced"
          ↔ |(startSession sb qb).difference| < 1 / 100))
    ∧ (startSession 1000 (99999 / 100)).difference = 1 / 100
    ∧ (startSession 1000 (99999 / 100)).status = "unbalanced" := by
  have hdiff : ∀ sb qb : ℚ,
      (startSession sb qb).difference = pyRound2 (sb - qb) := fun _ _ => rfl
  have hstat : ∀ sb qb : ℚ, (startSession sb qb).status =
      if |pyRound2 (sb - qb)| < 1 / 100 then "balanced" else "unbalanced" :=
    fun _ _ => rfl
  have hround : pyRound2 ((1000 : ℚ) - 99999 / 100) = 1 / 100 := by
    have hq : (1000 : ℚ) - 99999 / 100 = 1 / 100 := by norm_num
    rw [hq]
    simp only [pyRound2]
    have hx : ((1 : ℚ) / 100) * 100 = 1 := by norm_num
    rw [hx, Int.floor_one]
    rw [if_pos (by norm_num)]
    norm_num
  refine ⟨?_, ?_, ?_⟩
  · intro sb qb
    refine ⟨rfl, ?_⟩
    rw [hstat, hdiff]
    by_cases h : |pyRound2 (sb - qb)| < 1 / 100
    · simp [h]
    · simp only [if_neg h]
      constructor
      · intro hc
        exact absurd hc (by decide)
      · intro hc
        exact absurd hc h
  · rw [hdiff, hround]
  · rw [hstat, hround]
    rw [if_neg (by rw [abs_of_nonneg (by norm_num)]; norm_num)]

/-- C9.  The candidate-fetching fan-out never fails as a whole: a document
type whose query raises contributes zero records while all other types are
still queried; and on the import path every per-type SQL is sent through
`QBClient.query` with a `MAXRESULTS 500` clause appended (the built SQL does
not already contain the token). -/
theorem c9_confirmed_best_effort :
    (∀ (q : String → Except Unit (List ExTxn)) (l1 l2 : List String)
        (t : String), q t = .error () →
        fetchExisting q (l1 ++ t :: l2) = fetchExisting q (l1 ++ l2))
    ∧ (∀ entity s e : String,
        containsTok ("MAXRESULTS".data)
            (((importEntitySql entity s e).data).map Char.toUpper) = false →
        clientQuerySql (importEntitySql entity s e) 500 =
          importEntitySql entity s e ++ " MAXRESULTS 500") := by
  constructor
  · intro q l1 l2 t hq
    induction l1 with
    | nil => simp [fetchExisting, hq]
    | cons a as ih => simp [fetchExisting, ih]
  · intro entity s e h
    unfold clientQuerySql
    rw [if_neg (by simp [h])]
    rw [show (toString (500 : Int)) = "500" from rfl, String.append_assoc]
    rfl

/-- C9, witness: a failing "Deposit" query is swallowed while "Purchase"
and "Transfer" are still queried, and a concrete import-path SQL gets
`MAXRESULTS 500` appended. -/
theorem c9_witness :
    fetchExisting
        (fun t => if t = "Deposit" then .error () else .ok ([] : List ExTxn))
        (["Purchase"] ++ "Deposit" :: ["Transfer"]) =
      fetchExisting
        (fun t => if t = "Deposit" then .error () else .ok ([] : List ExTxn))
        (["Purchase"] ++ ["Transfer"])
    ∧ clientQuerySql (importEntitySql "Purchase" "2026-02-26" "2026-03-04") 500
        = importEntitySql "Purchase" "2026-02-26" "2026-03-04"
            ++ " MAXRESULTS 500" :=
  ⟨c9_confirmed_best_effort.1 _ ["Purchase"] ["Transfer"] "Deposit" (by rfl),
   c9_confirmed_best_effort.2 "Purchase" "2026-02-26" "2026-03-04" (by rfl)⟩

/-- C10.  When `dry_run` is false, the creation loop appends exactly one
entry per unmatched statement record — positionally, the i-th entry is the
outcome (success with created entity and id, or error record) of posting the
i-th unmatched record, so a failure never aborts the remaining creations —
and the report's `created` count equals the length of its `created` detail
list. -/
theorem c10_confirmed_created_entries :
    ∀ (post : String → CreateBody → Except String (Option String))
      (accountId : String) (ts : List ImpTxn),
      (createUnmatched post accountId ts).length = ts.length
      ∧ (∀ i : Nat, (createUnmatched post accountId ts)[i]? =
          (ts[i]?).map (createEntry post accountId))
      ∧ reportCreatedCount false (createUnmatched post accountId ts) =
          (reportCreatedDetails false (createUnmatched post accountId ts)).length := by
  intro post accountId ts
  refine ⟨?_, ?_, ?_⟩
  · induction ts with
    | nil => rfl
    | cons t rest ih => simp [createUnmatched, ih]
  · intro i
    induction ts generalizing i with
    | nil => simp [createUnmatched]
    | cons t rest ih =>
      cases i with
      | zero => simp [createUnmatched]
      | succ n => simp [createUnmatched, ih]
  · rfl

end QB
